import Mathlib

/-!
# Verification of the voice_tool silence-remapping pipeline

Shallow embedding of `voice_tools_v1/core/processor.py` and
`voice_tools_v1/core/aligner.py` (the "smart mode" pipeline), together with
theorems settling the specification claims about:

* the punctuation/frame duration policy,
* the lexical aligner's cursor discipline and return shape,
* the edit-candidate generator (punctuation pass and TTS-anomaly pass),
* the edit-plan resolver (sort + tiny-voice-chunk sweep),
* the audio reconstructor (slice/replicate model of pydub segments) and its
  trailing-silence trim,
* cooperative cancellation.

Conventions:
* All millisecond quantities are `ℤ` (Python ints).  Comparisons of the
  Python float division `len / 33` against a bound are stated with the exact
  integer thresholds; bridging lemmas (`endTargetPause_floatCmp`,
  `midTargetPause_floatCmp`) prove them equal to the literal rational
  transcription of the source comparison, which is exact — CPython's double
  rounding cannot flip any of these comparisons at integer inputs.
* Python floor division `//` is `Int.fdiv`.
* Audio is a list of samples at millisecond resolution (`List ℤ`); the pydub
  slice `audio[a:b]` for `0 ≤ a, b` is `(audio.take b.toNat).drop a.toNat`,
  `AudioSegment.silent(d)` is `List.replicate d 0`, `+=` is `++`.  All slice
  indices reachable in the modelled paths are nonnegative.
* `random.randint(lo, hi)` is modelled by an explicit draw `rng k` for a
  caller-supplied stream `rng : ℕ → ℤ`; theorems that depend on the draw
  assume only `6 ≤ rng k ∧ rng k ≤ 8`, the range of `randint(6, 8)`.
-/

/-- Frame period in ms (`FRAME_MS = 33`, processor.py:99). -/
def FRAME_MS : ℤ := 33

/-- `END_SENTENCE_FRAMES = 24` (processor.py:102). -/
def END_SENTENCE_FRAMES : ℤ := 24

/-- `MID_SENTENCE_MIN_FRAMES = 6` (processor.py:106). -/
def MID_SENTENCE_MIN_FRAMES : ℤ := 6

/-- `MID_SENTENCE_MAX_FRAMES = 8` (processor.py:107). -/
def MID_SENTENCE_MAX_FRAMES : ℤ := 8

/-- `TTS_ERROR_THRESHOLD_MS = 300` (processor.py:112). -/
def TTS_ERROR_THRESHOLD_MS : ℤ := 300

/-- `TTS_ERROR_TARGET_MS = 100` (processor.py:113). -/
def TTS_ERROR_TARGET_MS : ℤ := 100

/-- `TTS_ERROR_HEAD_MS = 50` (processor.py:114). -/
def TTS_ERROR_HEAD_MS : ℤ := 50

/-- `TTS_ERROR_TAIL_MS = 50` (processor.py:115). -/
def TTS_ERROR_TAIL_MS : ℤ := 50

/-- `MIN_VOICE_CHUNK_MS = 700` (processor.py:451). -/
def MIN_VOICE_CHUNK_MS : ℤ := 700

/-- Punctuation class as computed by `get_punctuation_config`
(processor.py:123-147): `pend` for sentence-final marks, `pmid` for
clause-internal marks, `pnone` otherwise. -/
inductive PClass where
  | pend
  | pmid
  | pnone
deriving DecidableEq

/-- The classification part of `get_punctuation_config` (processor.py:123-147).
Python evaluates `punct in '.!?'` as a substring test, so the nonempty
substrings of the literal are enumerated; likewise for `',:;'`.
`punct == '...'` is the separate ellipsis test.  The empty string is caught
first by `if not punct`. -/
def get_punctuation_config (punct : String) : PClass :=
  if punct = "" then .pnone
  else if punct ∈ [".", "!", "?", ".!", "!?", ".!?"] ∨ punct = "..." then .pend
  else if punct ∈ [",", ":", ";", ",:", ":;", ",:;"] then .pmid
  else .pnone

/-- End-of-sentence branch of the V4 frame logic (processor.py:341-353):
`silence_frames = len / FRAME_MS` (exact float division) is compared with 20;
`≥ 20` frames → `24 * FRAME_MS`, otherwise keep the original length.  The
comparison is expressed with the equivalent integer threshold
`20 * FRAME_MS ≤ len`; `endTargetPause_floatCmp` below proves this equal to
the literal transcription of the source's division-based comparison. -/
def endTargetPause (silenceLen : ℤ) : ℤ :=
  if 20 * FRAME_MS ≤ silenceLen then 24 * FRAME_MS
  else silenceLen

/-- Mid-sentence branch of the V4 frame logic (processor.py:355-374), with the
`random.randint(6, 8)` draw passed in as `r`:
`≤ 6` frames → keep; `< 20` frames → `r * FRAME_MS`; otherwise `24 * FRAME_MS`.
The division-based comparisons of the source are expressed with the
equivalent integer thresholds; see `midTargetPause_floatCmp`. -/
def midTargetPause (silenceLen r : ℤ) : ℤ :=
  if silenceLen ≤ 6 * FRAME_MS then silenceLen
  else if silenceLen < 20 * FRAME_MS then r * FRAME_MS
  else 24 * FRAME_MS

/-- `calculate_hybrid_pause` (processor.py:163-209), with the single
`random.randint(6, 8)` draw a branch may perform passed in as `r`.
`frame_len = original_silence_ms // frame_ms` is Python floor division. -/
def calculate_hybrid_pause (original_silence_ms : ℤ) (punct : String) (r : ℤ) : ℤ :=
  let frame_len := original_silence_ms.fdiv FRAME_MS
  match get_punctuation_config punct with
  | .pend =>
      if END_SENTENCE_FRAMES < frame_len then END_SENTENCE_FRAMES * FRAME_MS
      else original_silence_ms
  | .pmid =>
      if MID_SENTENCE_MAX_FRAMES < frame_len then r * FRAME_MS
      else original_silence_ms
  | .pnone =>
      if frame_len ≤ 7 then original_silence_ms
      else if frame_len ≤ 23 then r * FRAME_MS
      else END_SENTENCE_FRAMES * FRAME_MS

/-! ## Lexical aligner (`aligner.py`) -/

/-- `ScriptToken`: a script word with its following punctuation, as produced
by `extract_words_with_punctuation` (aligner.py:28-49). -/
structure ScriptTok where
  word : String
  punct : String
deriving DecidableEq

/-- `AlignedWord` (aligner.py:12-18). -/
structure AlignedWord where
  text : String
  start_ms : ℤ
  end_ms : ℤ
  punctuation_after : String
deriving DecidableEq

/-- A transcript word already converted to milliseconds, the shape consumed by
the loop body of `align_transcript_with_script` (aligner.py:74-78); the
seconds→ms conversion and `normalize_text` happen at that boundary and are
abstracted into the caller-supplied match predicate. -/
structure TranscriptWord where
  text : String
  start_ms : ℤ
  end_ms : ℤ
deriving DecidableEq

/-- The lookahead loop `for lookahead in range(1, min(4, len(script_words) -
script_idx))` (aligner.py:96-105): the first `l ∈ [1, min(3, len-idx-1)]` such
that the script token at `idx + l` matches, scanned in increasing order.
`matchF` abstracts `word_text == script_word or _fuzzy_match(...)`. -/
def alignLookahead (matchF : String → String → Bool) (sw : List ScriptTok)
    (idx : ℕ) (w : String) : Option ℕ :=
  (List.range' 1 (min 3 (sw.length - idx - 1))).find?
    (fun l => matchF w ((sw.getD (idx + l) ⟨"", ""⟩).word))

/-- One iteration of the transcript-word loop (aligner.py:80-105): given the
cursor `idx`, returns the punctuation attributed to the word, the new cursor,
and the index of the script token consumed (if any). -/
def alignStep (matchF : String → String → Bool) (sw : List ScriptTok)
    (idx : ℕ) (w : String) : String × ℕ × Option ℕ :=
  if idx < sw.length then
    let t := sw.getD idx ⟨"", ""⟩
    if matchF w t.word then (t.punct, idx + 1, some idx)
    else
      match alignLookahead matchF sw idx w with
      | some l => ((sw.getD (idx + l) ⟨"", ""⟩).punct, idx + l + 1, some (idx + l))
      | none => ("", idx, none)
  else ("", idx, none)

/-- The whole transcript loop (aligner.py:74-112), also returning the trace of
consumed script-token indices and the cursor history (used to state the
monotonicity guarantee). -/
def alignGo (matchF : String → String → Bool) (sw : List ScriptTok)
    (idx : ℕ) : List TranscriptWord → List AlignedWord × List ℕ × List ℕ
  | [] => ([], [], [])
  | tw :: rest =>
      let (punct, idx', consumed) := alignStep matchF sw idx tw.text
      let (aligned, trace, cursors) := alignGo matchF sw idx' rest
      (⟨tw.text, tw.start_ms, tw.end_ms, punct⟩ :: aligned,
       consumed.toList ++ trace, idx' :: cursors)

/-- `align_transcript_with_script` (aligner.py:52-115): the function's actual
return value is only the list of `AlignedWord` (aligner.py:115) — it does not
return an alignment report. -/
def align_transcript_with_script (matchF : String → String → Bool)
    (sw : List ScriptTok) (tws : List TranscriptWord) : List AlignedWord :=
  (alignGo matchF sw 0 tws).1

/-! ## Edit-candidate generator (`process_audio_smart`, processor.py:291-445) -/

/-- A detected silence, as built at processor.py:264-272 plus the `used` flag
set by the candidate passes (`sil.get('used')` is falsy until set). -/
structure Silence where
  start : ℤ
  stop : ℤ
  len : ℤ
  used : Bool
deriving DecidableEq

/-- Conversion of one detector range `(s, e)` into a silence record
(processor.py:265-272): `len = e - s`, not yet used. -/
def mkSilence (s e : ℤ) : Silence :=
  ⟨s, e, e - s, false⟩

/-- One edit point, the dict built at processor.py:378-386 (punctuation pass)
and processor.py:428-439 (anomaly pass).  `tts_error` is the marker key the
anomaly pass adds (`ep.get('tts_error')` is falsy for punctuation edits). -/
structure EditPoint where
  word_end : ℤ
  word : String
  punct : String
  silence_start : ℤ
  silence_end : ℤ
  original_len : ℤ
  target_len : ℤ
  tts_error : Bool
deriving DecidableEq

/-- The best-silence search (processor.py:316-331): scan silences in order,
skip used ones, admit `dist = sil.start - word_end ∈ [-200, 600]`, keep the
index with strictly smallest `|dist|` (`best_dist` starts at `inf`, modelled
by the `none` accumulator).  Returns the index of the chosen silence. -/
def findBestGo (word_end : ℤ) (i : ℕ) (best : Option (ℕ × ℤ)) :
    List Silence → Option ℕ
  | [] => best.map Prod.fst
  | s :: rest =>
      if s.used then findBestGo word_end (i + 1) best rest
      else
        let dist := s.start - word_end
        if -200 ≤ dist ∧ dist ≤ 600 then
          match best with
          | none => findBestGo word_end (i + 1) (some (i, dist)) rest
          | some (bi, bd) =>
              if |dist| < |bd| then findBestGo word_end (i + 1) (some (i, dist)) rest
              else findBestGo word_end (i + 1) (some (bi, bd)) rest
        else findBestGo word_end (i + 1) best rest

/-- Entry point of the best-silence search over the whole silence list. -/
def findBestSilence (word_end : ℤ) (ss : List Silence) : Option ℕ :=
  findBestGo word_end 0 none ss

/-- Target length for a found silence in the punctuation pass
(processor.py:341-376): end marks use the V4 end rule, mid marks the V4 mid
rule with a `randint(6,8)` draw `r`, anything else falls back to
`calculate_hybrid_pause(len, '', FRAME_MS)`. -/
def punctTarget (punct : String) (silenceLen r : ℤ) : ℤ :=
  match get_punctuation_config punct with
  | .pend => endTargetPause silenceLen
  | .pmid => midTargetPause silenceLen r
  | .pnone => calculate_hybrid_pause silenceLen "" r

/-- Marking a found silence as used (`best_silence['used'] = True`,
processor.py:335 / `sil['used'] = True`, processor.py:419): Python mutates
the dict in place, modelled by replacing the list entry at its index. -/
def markUsed (ss : List Silence) (idx : ℕ) : List Silence :=
  ss.set idx { ss.getD idx (mkSilence 0 0) with used := true }

/-- The edit point the punctuation pass emits for word `w`, silence `s` and
draw `r` (processor.py:378-386): the edited span starts at the clamped
`safe_silence_start = max(best_silence['start'], word_end - 50)`
(processor.py:339). -/
def punctEP (w : AlignedWord) (s : Silence) (r : ℤ) : EditPoint :=
  { word_end := w.end_ms
    word := w.text
    punct := w.punctuation_after
    silence_start := max s.start (w.end_ms - 50)
    silence_end := s.stop
    original_len := s.len
    target_len := punctTarget w.punctuation_after s.len r
    tts_error := false }

/-- The punctuation pass (processor.py:300-391): for each aligned word with
punctuation, find the best unused silence near its end; if found, mark it
used, clamp the edited span's start to `word_end - 50` (processor.py:339)
and emit the edit point.  Words without punctuation, and words with no
silence in the window, emit nothing.  `rng i` is the draw `randint(6, 8)`
would produce for the word at position `i`. -/
def punctPass (rng : ℕ → ℤ) (i : ℕ) (ss : List Silence) :
    List AlignedWord → List Silence × List EditPoint
  | [] => (ss, [])
  | w :: ws =>
      if w.punctuation_after = "" then punctPass rng (i + 1) ss ws
      else
        match findBestSilence w.end_ms ss with
        | none => punctPass rng (i + 1) ss ws
        | some idx =>
            let res := punctPass rng (i + 1) (markUsed ss idx) ws
            (res.1, punctEP w (ss.getD idx (mkSilence 0 0)) (rng i) :: res.2)

/-- The anomaly-pass silence search (processor.py:413-420): the first unused
silence whose span lies within the word gap with 50 ms tolerance. -/
def ttsWindow (cur nxt : AlignedWord) (s : Silence) : Bool :=
  !s.used && decide (cur.end_ms - 50 ≤ s.start) && decide (s.stop ≤ nxt.start_ms + 50)

/-- First index satisfying a predicate (the `for sil in silences: ... break`
scan of processor.py:413-420). -/
def findFirstIdx (p : Silence → Bool) : List Silence → Option ℕ
  | [] => none
  | s :: rest => if p s then some 0 else (findFirstIdx p rest).map (· + 1)

/-- The `tts_error` edit point the anomaly pass emits for word `cur` and
silence `s` (processor.py:428-439): a 50 ms head and tail of the original
silence are reserved and the target is `min(original_len, 100)`. -/
def ttsEP (cur : AlignedWord) (s : Silence) : EditPoint :=
  { word_end := cur.end_ms
    word := cur.text
    punct := ""
    silence_start := s.start + TTS_ERROR_HEAD_MS
    silence_end := s.stop - TTS_ERROR_TAIL_MS
    original_len := s.len
    target_len := min s.len TTS_ERROR_TARGET_MS
    tts_error := true }

/-- One iteration of the anomaly loop (processor.py:398-442) for the pair
`(cur, nxt)`: skip if `cur` carries punctuation; otherwise, if the gap is at
least 300 ms and a matching unused silence exists, mark it used and emit the
`tts_error` edit point. -/
def ttsStep (ss : List Silence) (cur nxt : AlignedWord) :
    List Silence × Option EditPoint :=
  if cur.punctuation_after ≠ "" then (ss, none)
  else if TTS_ERROR_THRESHOLD_MS ≤ nxt.start_ms - cur.end_ms then
    match findFirstIdx (ttsWindow cur nxt) ss with
    | none => (ss, none)
    | some idx => (markUsed ss idx, some (ttsEP cur (ss.getD idx (mkSilence 0 0))))
  else (ss, none)

/-- The anomaly pass over all consecutive pairs
(`for i in range(len(aligned_words) - 1)`, processor.py:398). -/
def ttsPass (ss : List Silence) : List AlignedWord → List Silence × List EditPoint
  | [] => (ss, [])
  | [_] => (ss, [])
  | cur :: nxt :: rest =>
      let step := ttsStep ss cur nxt
      let res := ttsPass step.1 (nxt :: rest)
      (res.1, step.2.toList ++ res.2)

/-- Both candidate passes in program order: the punctuation pass first, then
the anomaly pass over the silences it leaves behind, candidates appended in
the order `edit_points` receives them. -/
def generateCandidates (rng : ℕ → ℤ) (ws : List AlignedWord)
    (ss : List Silence) : List EditPoint :=
  let p := punctPass rng 0 ss ws
  let t := ttsPass p.1 ws
  p.2 ++ t.2

/-! ## Edit-plan resolver (processor.py:447-484) -/

/-- Stable insertion of an edit point into a list sorted by `silence_start`
(the element is placed after every earlier element with a strictly smaller or
equal key, matching Python's stable `list.sort`). -/
def insertByStart (ep : EditPoint) : List EditPoint → List EditPoint
  | [] => [ep]
  | x :: xs =>
      if x.silence_start < ep.silence_start then x :: insertByStart ep xs
      else ep :: x :: xs

/-- Stable sort by `silence_start` (`edit_points.sort(key=lambda x:
x['silence_start'])`, processor.py:449 and 484). -/
def sortByStart (l : List EditPoint) : List EditPoint :=
  l.foldr insertByStart []

/-- The tiny-voice-chunk sweep (processor.py:453-473): walk the sorted edit
points tracking `last_silence_end` (initially 0); an edit point whose
preceding voice span `silence_start - last_silence_end` is strictly between
0 and `MIN_VOICE_CHUNK_MS` is dropped (and `last_silence_end` stays), any
other edit point is kept and advances `last_silence_end` to its
`silence_end`. -/
def sweepTiny (last : ℤ) : List EditPoint → List EditPoint
  | [] => []
  | ep :: rest =>
      let voiceLen := ep.silence_start - last
      if 0 < voiceLen ∧ voiceLen < MIN_VOICE_CHUNK_MS then sweepTiny last rest
      else ep :: sweepTiny ep.silence_end rest

/-- The resolved edit plan (processor.py:447-484): sort, sweep, sort again
(the second `sort` at processor.py:484; `edit_points = final_edit_points`
is also taken when nothing was removed, since the lists coincide then). -/
def resolvePlan (cands : List EditPoint) : List EditPoint :=
  sortByStart (sweepTiny 0 (sortByStart cands))

/-- The non-overlap property claimed for resolved plans:
`plan[i].silence_end ≤ plan[i+1].silence_start` for consecutive entries. -/
def PlanNonOverlap (plan : List EditPoint) : Prop :=
  List.Chain' (fun p q => p.silence_end ≤ q.silence_start) plan

/-- The voice-chunk-floor property claimed for resolved plans: each non-initial
entry is preceded by a voice span of exactly 0 or at least 700 ms. -/
def PlanVoiceFloor (plan : List EditPoint) : Prop :=
  List.Chain' (fun p q => q.silence_start - p.silence_end = 0 ∨
    700 ≤ q.silence_start - p.silence_end) plan

/-- Detector postcondition (spec §6): silence ranges are ascending and
non-overlapping, each with positive length. -/
def SilencesWellFormed (ranges : List (ℤ × ℤ)) : Prop :=
  List.Chain' (fun a b => a.2 ≤ b.1) ranges ∧ ∀ r ∈ ranges, r.1 < r.2

instance : DecidablePred SilencesWellFormed := fun ranges =>
  inferInstanceAs (Decidable (List.Chain' (fun (a b : ℤ × ℤ) => a.2 ≤ b.1) ranges ∧
    ∀ r ∈ ranges, r.1 < r.2))

instance (plan : List EditPoint) : Decidable (PlanNonOverlap plan) :=
  inferInstanceAs (Decidable
    (List.Chain' (fun (p q : EditPoint) => p.silence_end ≤ q.silence_start) plan))

instance (plan : List EditPoint) : Decidable (PlanVoiceFloor plan) :=
  inferInstanceAs (Decidable
    (List.Chain' (fun (p q : EditPoint) => q.silence_start - p.silence_end = 0 ∨
      700 ≤ q.silence_start - p.silence_end) plan))

/-! ## Audio reconstructor (processor.py:486-580)

Audio is a list of samples at 1 ms resolution.  The structure of the Python
loop — `result += chunk` statements executed in order — is modelled by the
equal concatenation of the pieces each iteration contributes, recursing over
the plan with the source cursor as an argument.  The `inject_mode` and
`no_punct_mode` branches (processor.py:509-533) are dead in this program: no
edit point ever carries those keys, so they are not modelled. -/

/-- `audio[a:b]` for nonnegative millisecond indices `a`, `b`. -/
def sliceMs (audio : List ℤ) (a b : ℤ) : List ℤ :=
  (audio.take b.toNat).drop a.toNat

/-- The pieces one edit point contributes for its adjusted silence
(processor.py:503-552, with `is_inject`/`is_no_punct` both false):
for `target_len > 0`, if the original silence exceeded 60 ms, preserve up to
30 ms of the real head and tail and fill the middle with synthetic silence;
otherwise copy the edited span whole and append `max 0 (target - original)`
of synthetic silence. -/
def silencePart (audio : List ℤ) (ep : EditPoint) : List ℤ :=
  if 0 < ep.target_len then
    if 60 < ep.original_len then
      let head_preserve := min 30 (ep.original_len.fdiv 2)
      let tail_preserve := min 30 (ep.original_len.fdiv 2)
      let mid_silence := max 0 (ep.target_len - head_preserve - tail_preserve)
      sliceMs audio ep.silence_start (ep.silence_start + head_preserve) ++
        List.replicate mid_silence.toNat 0 ++
        sliceMs audio (ep.silence_end - tail_preserve) ep.silence_end
    else
      sliceMs audio ep.silence_start ep.silence_end ++
        List.replicate (max 0 (ep.target_len - ep.original_len)).toNat 0
  else []

/-- The reconstruction loop (processor.py:486-567) from a given cursor:
each entry first copies the untouched audio `audio[cursor:silence_start]`
(only when `silence_start > cursor`), then its adjusted silence, then the
cursor jumps to `silence_end`; after the last entry the remaining audio is
copied (only when `cursor < len(audio)`). -/
def rebuildAux (audio : List ℤ) (cursor : ℤ) : List EditPoint → List ℤ
  | [] => if cursor < (audio.length : ℤ) then audio.drop cursor.toNat else []
  | ep :: rest =>
      (if cursor < ep.silence_start then sliceMs audio cursor ep.silence_start else []) ++
        silencePart audio ep ++
        rebuildAux audio ep.silence_end rest

/-- The reconstructed audio before the trailing-silence post-pass. -/
def rebuildCore (audio : List ℤ) (plan : List EditPoint) : List ℤ :=
  rebuildAux audio 0 plan

/-- The trailing-silence trim (processor.py:569-580), with the acoustic
detector over the final ≤ 5000 ms chunk supplied as the external function
`det`: if the last detected silence reaches within 50 ms of the end of the
chunk and exceeds 500 ms, the excess over 500 ms is cut from the result. -/
def trimTail (det : List ℤ → List (ℤ × ℤ)) (result : List ℤ) : List ℤ :=
  let L : ℤ := result.length
  let tailCheck := if 5000 < L then result.drop (L - 5000).toNat else result
  match (det tailCheck).getLast? with
  | none => result
  | some lastSil =>
      let chunkLen : ℤ := min 5000 L
      if chunkLen - 50 ≤ lastSil.2 then
        let silDur := lastSil.2 - lastSil.1
        if 500 < silDur then result.take (L - (silDur - 500)).toNat
        else result
      else result

/-- Reconstruction including the trailing-silence post-pass; this is the
audio that `result.export` writes (processor.py:584). -/
def fullRebuild (det : List ℤ → List (ℤ × ℤ)) (audio : List ℤ)
    (plan : List EditPoint) : List ℤ :=
  trimTail det (rebuildCore audio plan)

/-- Σ `target_len` over a plan. -/
def planTargetSum (plan : List EditPoint) : ℤ :=
  (plan.map (fun ep => ep.target_len)).sum

/-- Σ `original_len` over a plan (the quantity the spec's accounting formula
uses). -/
def planOrigSum (plan : List EditPoint) : ℤ :=
  (plan.map (fun ep => ep.original_len)).sum

/-- Σ of edited span lengths `silence_end - silence_start` over a plan (the
quantity the reconstruction actually removes). -/
def planSpanSum (plan : List EditPoint) : ℤ :=
  (plan.map (fun ep => ep.silence_end - ep.silence_start)).sum

/-- Well-formedness of a plan for reconstruction from cursor `c` in a track of
length `L`: entries are in order, spans are within the track and at least
60 ms long, original lengths exceed the 60 ms head/tail threshold and targets
cover the 60 ms of preserved head/tail. -/
def PlanOK (L : ℤ) : ℤ → List EditPoint → Prop
  | c, [] => c ≤ L
  | c, ep :: rest =>
      c ≤ ep.silence_start ∧ ep.silence_start + 60 ≤ ep.silence_end ∧
      ep.silence_end ≤ L ∧ 60 < ep.original_len ∧ 60 ≤ ep.target_len ∧
      PlanOK L ep.silence_end rest

/-! ## Cooperative cancellation (processor.py:250, 284, 491)

`process_audio_smart` polls `cancel_flag()` after loading the audio, after
transcription, and at the top of every iteration of the reconstruction loop;
a positive poll raises `InterruptedError`, which the driver reports as the
cancelled outcome (voice_app.py:379-380).  `result.export` runs only after
the loop (processor.py:584).  The polls are modelled as a boolean stream
`cancel : ℕ → Bool` read at successive poll points, and the raise as
`Except.error`: an `Except.error` run writes no output file. -/

/-- The reconstruction loop with its per-iteration cancellation poll
(processor.py:490-491), polling `cancel k` before processing the `k`-th
remaining entry. -/
def rebuildAuxCancel (cancel : ℕ → Bool) (audio : List ℤ) :
    ℕ → ℤ → List EditPoint → Except Unit (List ℤ)
  | _, cursor, [] =>
      .ok (if cursor < (audio.length : ℤ) then audio.drop cursor.toNat else [])
  | k, cursor, ep :: rest =>
      if cancel k then .error ()
      else
        match rebuildAuxCancel cancel audio (k + 1) ep.silence_end rest with
        | .error e => .error e
        | .ok tailPart =>
            .ok ((if cursor < ep.silence_start then sliceMs audio cursor ep.silence_start
                  else []) ++ silencePart audio ep ++ tailPart)

/-- The cancellation-relevant skeleton of `process_audio_smart`:
poll 0 is the check after loading (processor.py:250), poll 1 the check after
transcription (processor.py:284), and polls `2, 3, …` the per-iteration
checks of the reconstruction loop (processor.py:491).  The `.ok` payload is
the audio that is subsequently exported; a `.error` result models the raised
`InterruptedError`, reaching the driver before any export. -/
def runSmartPipeline (cancel : ℕ → Bool) (det : List ℤ → List (ℤ × ℤ))
    (audio : List ℤ) (plan : List EditPoint) : Except Unit (List ℤ) :=
  if cancel 0 then .error ()
  else if cancel 1 then .error ()
  else
    match rebuildAuxCancel cancel audio 2 0 plan with
    | .error e => .error e
    | .ok result => .ok (trimTail det result)

/-! ## Concrete instances used by witnesses and counterexamples -/

/-- A fixed admissible value (6) for every `randint(6, 8)` draw. -/
def rngSix : ℕ → ℤ := fun _ => 6

/-- Detector ranges for the resolver counterexample: two ascending,
non-overlapping silences of 70 ms and 700 ms. -/
def rangesC2 : List (ℤ × ℤ) := [(1000, 1070), (1100, 1800)]

/-- The silence records built from `rangesC2` (processor.py:264-272). -/
def silencesC2 : List Silence := rangesC2.map (fun r => mkSilence r.1 r.2)

/-- Aligned words for the resolver counterexample: two sentence-final words
whose ends sit just after the silences, so the second word is matched to the
earlier, shorter silence and its edited span start is clamped beyond that
silence's end. -/
def wordsC2 : List AlignedWord := [⟨"a", 800, 1150, "."⟩, ⟨"b", 1160, 1190, "."⟩]

/-- The resolved plan of the resolver counterexample run. -/
def planC2 : List EditPoint := resolvePlan (generateCandidates rngSix wordsC2 silencesC2)

/-- One sentence-final word for the accounting run. -/
def wordsC7 : List AlignedWord := [⟨"x", 900, 1100, "."⟩]

/-- One 1000 ms silence starting 100 ms before the word's end, so the edited
span start is clamped to `word_end - 50` and the span is 50 ms shorter than
`original_len`. -/
def silencesC7 : List Silence := [mkSilence 1000 2000]

/-- The resolved plan of the accounting run. -/
def planC7 : List EditPoint := resolvePlan (generateCandidates rngSix wordsC7 silencesC7)

/-- The single edit point `planC7` resolves to. -/
def epC7 : EditPoint := ⟨1100, "x", ".", 1050, 2000, 1000, 792, false⟩

/-- A 3000 ms track of pure silence (all-zero samples). -/
def audio3000 : List ℤ := List.replicate 3000 0

/-- A detector answer for the trailing-trim run: the whole 3000 ms tail chunk
is one silence — exactly what the acoustic detector reports on `audio3000`. -/
def tailDetC8 : List ℤ → List (ℤ × ℤ) := fun _ => [(0, 3000)]

/-! ## Helper lemmas -/

/-- The float comparison `len / 33 >= 20` of the end branch is the integer
threshold `660 ≤ len` (the division is exact in rationals, and CPython's
double rounding cannot flip it at any integer). -/
lemma endFrames_iff (len : ℤ) :
    ((20 : ℚ) ≤ (len : ℚ) / (FRAME_MS : ℚ)) ↔ 660 ≤ len := by
  rw [FRAME_MS, le_div_iff₀ (by norm_num : (0 : ℚ) < ((33 : ℤ) : ℚ))]
  norm_num
  exact_mod_cast Iff.rfl

/-- `endTargetPause` agrees with the literal transcription of the source's
float comparison `len / FRAME_MS >= 20`. -/
lemma endTargetPause_floatCmp (len : ℤ) :
    endTargetPause len =
      if (20 : ℚ) ≤ (len : ℚ) / (FRAME_MS : ℚ) then 24 * FRAME_MS else len := by
  unfold endTargetPause
  simp only [endFrames_iff]
  norm_num [FRAME_MS]

/-- `midTargetPause` agrees with the literal transcription of the source's
float comparisons `len / FRAME_MS <= 6` and `len / FRAME_MS < 20`. -/
lemma midTargetPause_floatCmp (len r : ℤ) :
    midTargetPause len r =
      if (len : ℚ) / (FRAME_MS : ℚ) ≤ 6 then len
      else if (len : ℚ) / (FRAME_MS : ℚ) < 20 then r * FRAME_MS
      else 24 * FRAME_MS := by
  have h6 : ((len : ℚ) / (FRAME_MS : ℚ) ≤ 6) ↔ len ≤ 6 * FRAME_MS := by
    rw [FRAME_MS, div_le_iff₀ (by norm_num : (0 : ℚ) < ((33 : ℤ) : ℚ))]
    norm_num
    exact_mod_cast Iff.rfl
  have h20 : ((len : ℚ) / (FRAME_MS : ℚ) < 20) ↔ len < 20 * FRAME_MS := by
    rw [FRAME_MS, div_lt_iff₀ (by norm_num : (0 : ℚ) < ((33 : ℤ) : ℚ))]
    norm_num
    exact_mod_cast Iff.rfl
  unfold midTargetPause
  simp only [h6, h20]

/-- The consumed script index produced by one `alignStep` lies at or beyond the
incoming cursor, and the new cursor lies strictly beyond the consumed index;
the cursor never decreases. -/
lemma alignStep_bounds (matchF : String → String → Bool) (sw : List ScriptTok)
    (idx : ℕ) (w : String) :
    idx ≤ (alignStep matchF sw idx w).2.1 ∧
    (∀ j, (alignStep matchF sw idx w).2.2 = some j →
      idx ≤ j ∧ j < (alignStep matchF sw idx w).2.1) := by
  unfold alignStep
  dsimp only
  by_cases h : idx < sw.length
  · rw [if_pos h]
    by_cases hm : matchF w ((sw.getD idx (⟨"", ""⟩ : ScriptTok)).word) = true
    · rw [if_pos hm]
      dsimp only
      refine ⟨Nat.le_succ idx, ?_⟩
      intro j hj
      simp only [Option.some.injEq] at hj
      omega
    · rw [if_neg hm]
      cases hl : alignLookahead matchF sw idx w with
      | none =>
          simp only [hl]
          exact ⟨le_refl idx, fun j hj => by simp at hj⟩
      | some l =>
          simp only [hl]
          refine ⟨by omega, ?_⟩
          intro j hj
          simp only [Option.some.injEq] at hj
          omega
  · rw [if_neg h]
    exact ⟨le_refl idx, fun j hj => by simp at hj⟩

/-- Every script index consumed by `alignGo` starting at cursor `idx` is
`≥ idx`. -/
lemma alignGo_trace_ge (matchF : String → String → Bool) (sw : List ScriptTok) :
    ∀ (tws : List TranscriptWord) (idx : ℕ),
      ∀ j ∈ (alignGo matchF sw idx tws).2.1, idx ≤ j := by
  intro tws
  induction tws with
  | nil => intro idx j hj; simp [alignGo] at hj
  | cons tw rest ih =>
      intro idx j hj
      obtain ⟨h1, h2⟩ := alignStep_bounds matchF sw idx tw.text
      simp only [alignGo, List.mem_append] at hj
      rcases hj with hj | hj
      · rcases hmem : (alignStep matchF sw idx tw.text).2.2 with _ | k
        · rw [hmem] at hj; simp at hj
        · rw [hmem] at hj
          simp only [Option.toList_some, List.mem_singleton] at hj
          subst hj
          exact (h2 j hmem).1
      · exact le_trans h1 (ih _ j hj)

/-- The trace of consumed script indices is strictly increasing. -/
lemma alignGo_trace_sorted (matchF : String → String → Bool) (sw : List ScriptTok) :
    ∀ (tws : List TranscriptWord) (idx : ℕ),
      List.Pairwise (· < ·) (alignGo matchF sw idx tws).2.1 := by
  intro tws
  induction tws with
  | nil => intro idx; simp [alignGo]
  | cons tw rest ih =>
      intro idx
      obtain ⟨h1, h2⟩ := alignStep_bounds matchF sw idx tw.text
      simp only [alignGo]
      rcases hmem : (alignStep matchF sw idx tw.text).2.2 with _ | k
      · simpa using ih _
      · simp only [Option.toList_some, List.singleton_append, List.pairwise_cons]
        refine ⟨?_, ih _⟩
        intro j hj
        have hk := (h2 k hmem).2
        have hge := alignGo_trace_ge matchF sw rest ((alignStep matchF sw idx tw.text).2.1) j hj
        exact lt_of_lt_of_le hk hge

/-- The cursor history is non-decreasing step to step. -/
lemma alignGo_cursor_mono (matchF : String → String → Bool) (sw : List ScriptTok) :
    ∀ (tws : List TranscriptWord) (idx : ℕ),
      List.Chain' (· ≤ ·) (idx :: (alignGo matchF sw idx tws).2.2) := by
  intro tws
  induction tws with
  | nil => intro idx; simp [alignGo]
  | cons tw rest ih =>
      intro idx
      obtain ⟨h1, _⟩ := alignStep_bounds matchF sw idx tw.text
      simp only [alignGo]
      exact List.Chain'.cons h1 (ih _)

/-- If the sweep emits `q` first, `q` survived the check against the incoming
`last` value (drops do not update `last`). -/
lemma sweepTiny_head (last : ℤ) :
    ∀ (l : List EditPoint) (q : EditPoint) (rest : List EditPoint),
      sweepTiny last l = q :: rest →
      ¬(0 < q.silence_start - last ∧ q.silence_start - last < MIN_VOICE_CHUNK_MS) := by
  intro l
  induction l with
  | nil => intro q rest h; simp [sweepTiny] at h
  | cons ep tl ih =>
      intro q rest h
      unfold sweepTiny at h
      by_cases hc : 0 < ep.silence_start - last ∧ ep.silence_start - last < MIN_VOICE_CHUNK_MS
      · rw [if_pos hc] at h
        exact ih q rest h
      · rw [if_neg hc] at h
        obtain ⟨h1, _⟩ := List.cons.injEq .. ▸ h
        exact h1 ▸ hc

/-- Consecutive survivors of the sweep: the voice span between them is never
strictly between 0 and 700 ms. -/
lemma sweepTiny_chain (last : ℤ) (l : List EditPoint) :
    List.Chain' (fun p q => ¬(0 < q.silence_start - p.silence_end ∧
      q.silence_start - p.silence_end < MIN_VOICE_CHUNK_MS)) (sweepTiny last l) := by
  induction l generalizing last with
  | nil => simp [sweepTiny]
  | cons ep tl ih =>
      unfold sweepTiny
      by_cases hc : 0 < ep.silence_start - last ∧ ep.silence_start - last < MIN_VOICE_CHUNK_MS
      · rw [if_pos hc]
        exact ih last
      · rw [if_neg hc]
        cases hrec : sweepTiny ep.silence_end tl with
        | nil => simp
        | cons q rest =>
            rw [List.chain'_cons]
            exact ⟨sweepTiny_head ep.silence_end tl q rest hrec, hrec ▸ ih ep.silence_end⟩

/-- Length of a nonnegative in-bounds slice. -/
lemma sliceMs_length (audio : List ℤ) (a b : ℤ) (ha : 0 ≤ a) (hab : a ≤ b)
    (hb : b ≤ (audio.length : ℤ)) :
    ((sliceMs audio a b).length : ℤ) = b - a := by
  unfold sliceMs
  simp only [List.length_drop, List.length_take]
  omega

/-- The adjusted-silence piece of a well-formed entry has exactly the target
length. -/
lemma silencePart_length (audio : List ℤ) (ep : EditPoint)
    (h0 : 0 ≤ ep.silence_start) (h2 : ep.silence_start + 60 ≤ ep.silence_end)
    (h3 : ep.silence_end ≤ (audio.length : ℤ)) (h4 : 60 < ep.original_len)
    (h5 : 60 ≤ ep.target_len) :
    ((silencePart audio ep).length : ℤ) = ep.target_len := by
  have hfd : ep.original_len.fdiv 2 = ep.original_len / 2 :=
    Int.fdiv_eq_ediv _ (by norm_num)
  have hhead : min (30 : ℤ) (ep.original_len.fdiv 2) = 30 := by
    rw [hfd]; omega
  unfold silencePart
  rw [if_pos (by omega : 0 < ep.target_len), if_pos h4, hhead]
  have l1 : ((sliceMs audio ep.silence_start (ep.silence_start + 30)).length : ℤ) = 30 := by
    rw [sliceMs_length audio _ _ h0 (by omega) (by omega)]; ring
  have l3 : ((sliceMs audio (ep.silence_end - 30) ep.silence_end).length : ℤ) = 30 := by
    rw [sliceMs_length audio _ _ (by omega) (by omega) h3]; ring
  simp only [List.length_append, List.length_replicate]
  push_cast
  omega

/-- Length of the reconstruction of a well-formed plan from cursor `c`:
the remaining track length, minus the edited spans, plus the targets. -/
lemma rebuildAux_length (audio : List ℤ) :
    ∀ (plan : List EditPoint) (c : ℤ), 0 ≤ c → PlanOK (audio.length : ℤ) c plan →
      ((rebuildAux audio c plan).length : ℤ) =
        ((audio.length : ℤ) - c) - planSpanSum plan + planTargetSum plan := by
  intro plan
  induction plan with
  | nil =>
      intro c hc hok
      unfold PlanOK at hok
      unfold rebuildAux
      by_cases h : c < (audio.length : ℤ)
      · rw [if_pos h]
        simp only [List.length_drop, planSpanSum, planTargetSum, List.map_nil, List.sum_nil]
        omega
      · rw [if_neg h]
        simp only [List.length_nil, planSpanSum, planTargetSum, List.map_nil, List.sum_nil]
        omega
  | cons ep rest ih =>
      intro c hc hok
      obtain ⟨hcs, hspan, hend, horig, htgt, hrest⟩ := hok
      have hchunk : ((if c < ep.silence_start then sliceMs audio c ep.silence_start
          else []).length : ℤ) = ep.silence_start - c := by
        by_cases h : c < ep.silence_start
        · rw [if_pos h, sliceMs_length audio _ _ hc (by omega) (by omega)]
        · rw [if_neg h]
          simp only [List.length_nil]
          omega
      have hsil := silencePart_length audio ep (by omega) hspan hend horig htgt
      have hrec := ih ep.silence_end (by omega) hrest
      unfold rebuildAux
      simp only [List.length_append, planSpanSum, planTargetSum, List.map_cons, List.sum_cons]
      push_cast
      rw [← planSpanSum, ← planTargetSum] at *
      omega

/-- Length of the reconstruction of a well-formed plan (cursor 0). -/
lemma rebuildCore_length (audio : List ℤ) (plan : List EditPoint)
    (hok : PlanOK (audio.length : ℤ) 0 plan) :
    ((rebuildCore audio plan).length : ℤ) =
      (audio.length : ℤ) - planSpanSum plan + planTargetSum plan := by
  have := rebuildAux_length audio plan 0 le_rfl hok
  unfold rebuildCore
  omega

/-- With an empty plan the reconstruction loop degenerates to a verbatim
copy of the input. -/
lemma rebuildCore_nil (audio : List ℤ) : rebuildCore audio [] = audio := by
  unfold rebuildCore rebuildAux
  by_cases h : (0 : ℤ) < (audio.length : ℤ)
  · rw [if_pos h]
    simp
  · rw [if_neg h]
    have : audio.length = 0 := by omega
    exact (List.length_eq_zero.mp this).symm

/-- If the flag fires at one of the loop polls, the cancellation-aware loop
errors out. -/
lemma rebuildAuxCancel_error (cancel : ℕ → Bool) (audio : List ℤ) :
    ∀ (plan : List EditPoint) (k : ℕ) (cursor : ℤ),
      (∃ j, k ≤ j ∧ j < k + plan.length ∧ cancel j = true) →
      rebuildAuxCancel cancel audio k cursor plan = .error () := by
  intro plan
  induction plan with
  | nil =>
      intro k cursor ⟨j, hj1, hj2, _⟩
      simp only [List.length_nil] at hj2
      omega
  | cons ep rest ih =>
      intro k cursor ⟨j, hj1, hj2, hjc⟩
      unfold rebuildAuxCancel
      by_cases hk : cancel k = true
      · rw [if_pos hk]
      · rw [if_neg hk]
        have hne : j ≠ k := fun h => hk (h ▸ hjc)
        have : rebuildAuxCancel cancel audio (k + 1) ep.silence_end rest = .error () := by
          apply ih
          refine ⟨j, by omega, ?_, hjc⟩
          simp only [List.length_cons] at hj2
          omega
        rw [this]


/-- Every edit point the punctuation pass emits is `punctEP w s r` for some
word `w` of the input, some silence value `s` and some draw `r = rng j`. -/
lemma punctPass_mem (rng : ℕ → ℤ) :
    ∀ (ws : List AlignedWord) (i : ℕ) (ss : List Silence) (ep : EditPoint),
      ep ∈ (punctPass rng i ss ws).2 →
      ∃ (w : AlignedWord) (s : Silence) (j : ℕ), w ∈ ws ∧ ep = punctEP w s (rng j) := by
  intro ws
  induction ws with
  | nil => intro i ss ep h; simp [punctPass] at h
  | cons w ws ih =>
      intro i ss ep h
      unfold punctPass at h
      by_cases hw : w.punctuation_after = ""
      · rw [if_pos hw] at h
        obtain ⟨w', s, j, hmem, he⟩ := ih _ _ _ h
        exact ⟨w', s, j, List.mem_cons_of_mem _ hmem, he⟩
      · rw [if_neg hw] at h
        cases hf : findBestSilence w.end_ms ss with
        | none =>
            simp only [hf] at h
            obtain ⟨w', s, j, hmem, he⟩ := ih _ _ _ h
            exact ⟨w', s, j, List.mem_cons_of_mem _ hmem, he⟩
        | some idx =>
            simp only [hf, List.mem_cons] at h
            rcases h with h | h
            · exact ⟨w, ss.getD idx (mkSilence 0 0), i, List.mem_cons_self w ws, h⟩
            · obtain ⟨w', s, j, hmem, he⟩ := ih _ _ _ h
              exact ⟨w', s, j, List.mem_cons_of_mem _ hmem, he⟩

/-- A failed first-match scan means no element satisfies the predicate. -/
lemma findFirstIdx_none (p : Silence → Bool) :
    ∀ (l : List Silence), findFirstIdx p l = none → ∀ s ∈ l, p s = false := by
  intro l
  induction l with
  | nil => intro _ s hs; simp at hs
  | cons s rest ih =>
      intro h x hx
      unfold findFirstIdx at h
      by_cases hp : p s = true
      · rw [if_pos hp] at h; cases h
      · rw [if_neg hp] at h
        rcases List.mem_cons.mp hx with rfl | hx'
        · exact Bool.eq_false_iff.mpr hp
        · exact ih (by simpa [Option.map_eq_none'] using h) x hx'

/-- A successful first-match scan returns an index whose element satisfies
the predicate. -/
lemma findFirstIdx_some (p : Silence → Bool) :
    ∀ (l : List Silence) (idx : ℕ), findFirstIdx p l = some idx →
      p (l.getD idx (mkSilence 0 0)) = true := by
  intro l
  induction l with
  | nil => intro idx h; cases h
  | cons s rest ih =>
      intro idx h
      unfold findFirstIdx at h
      by_cases hp : p s = true
      · rw [if_pos hp] at h
        cases h
        simpa using hp
      · rw [if_neg hp] at h
        obtain ⟨j, hj, rfl⟩ := Option.map_eq_some'.mp h
        simpa using ih j hj

/-- `insertByStart` is a permutation-respecting insertion. -/
lemma insertByStart_perm (ep : EditPoint) :
    ∀ (l : List EditPoint), (insertByStart ep l).Perm (ep :: l) := by
  intro l
  induction l with
  | nil => exact List.Perm.refl _
  | cons x xs ih =>
      unfold insertByStart
      by_cases h : x.silence_start < ep.silence_start
      · rw [if_pos h]
        exact (ih.cons x).trans (List.Perm.swap ep x xs)
      · rw [if_neg h]

/-- Inserting into a list sorted by `silence_start` keeps it sorted. -/
lemma insertByStart_sorted (ep : EditPoint) :
    ∀ (l : List EditPoint),
      l.Pairwise (fun p q => p.silence_start ≤ q.silence_start) →
      (insertByStart ep l).Pairwise (fun p q => p.silence_start ≤ q.silence_start) := by
  intro l
  induction l with
  | nil => intro _; simp [insertByStart]
  | cons x xs ih =>
      intro h
      obtain ⟨hx, hxs⟩ := List.pairwise_cons.mp h
      unfold insertByStart
      by_cases hlt : x.silence_start < ep.silence_start
      · rw [if_pos hlt]
        refine List.pairwise_cons.mpr ⟨?_, ih hxs⟩
        intro y hy
        rcases List.mem_cons.mp ((insertByStart_perm ep xs).mem_iff.mp hy) with rfl | hy'
        · exact le_of_lt hlt
        · exact hx y hy'
      · rw [if_neg hlt]
        refine List.pairwise_cons.mpr ⟨?_, h⟩
        intro y hy
        rcases List.mem_cons.mp hy with rfl | hy'
        · exact not_lt.mp hlt
        · exact le_trans (not_lt.mp hlt) (hx y hy')

/-- The stable sort produces a list sorted by `silence_start`. -/
lemma sortByStart_sorted (l : List EditPoint) :
    (sortByStart l).Pairwise (fun p q => p.silence_start ≤ q.silence_start) := by
  induction l with
  | nil => simp [sortByStart]
  | cons x xs ih =>
      simp only [sortByStart, List.foldr_cons]
      exact insertByStart_sorted x _ ih

/-- Inserting below the minimum of a sorted list is a plain cons. -/
lemma insertByStart_of_le (x : EditPoint) (l : List EditPoint)
    (h : ∀ y ∈ l, x.silence_start ≤ y.silence_start) :
    insertByStart x l = x :: l := by
  cases l with
  | nil => rfl
  | cons y ys =>
      unfold insertByStart
      rw [if_neg (not_lt.mpr (h y (List.mem_cons_self y ys)))]

/-- Sorting an already-sorted list is the identity. -/
lemma sortByStart_of_sorted :
    ∀ (l : List EditPoint),
      l.Pairwise (fun p q => p.silence_start ≤ q.silence_start) →
      sortByStart l = l := by
  intro l
  induction l with
  | nil => intro _; rfl
  | cons x xs ih =>
      intro h
      obtain ⟨hx, hxs⟩ := List.pairwise_cons.mp h
      simp only [sortByStart, List.foldr_cons]
      rw [show List.foldr insertByStart [] xs = sortByStart xs from rfl, ih hxs]
      exact insertByStart_of_le x xs hx

/-- The sweep keeps a sublist of its input. -/
lemma sweepTiny_sublist :
    ∀ (l : List EditPoint) (last : ℤ), (sweepTiny last l).Sublist l := by
  intro l
  induction l with
  | nil => intro last; simp [sweepTiny]
  | cons ep tl ih =>
      intro last
      unfold sweepTiny
      by_cases hc : 0 < ep.silence_start - last ∧ ep.silence_start - last < MIN_VOICE_CHUNK_MS
      · rw [if_pos hc]
        exact (ih last).cons ep
      · rw [if_neg hc]
        exact (ih ep.silence_end).cons₂ ep

/-- The final re-sort of the resolver is the identity: the sweep output is a
sublist of a sorted list, hence sorted. -/
lemma resolvePlan_eq_sweep (cands : List EditPoint) :
    resolvePlan cands = sweepTiny 0 (sortByStart cands) := by
  unfold resolvePlan
  exact sortByStart_of_sorted _
    (List.Pairwise.sublist (sweepTiny_sublist (sortByStart cands) 0)
      (sortByStart_sorted cands))

/-- Sentence-final marks are classified `pend` by `get_punctuation_config`. -/
lemma end_class_config (p : String) (hp : p ∈ [".", "!", "?", "..."]) :
    get_punctuation_config p = .pend := by
  fin_cases hp <;> decide

/-! ## Claims -/

/-- C1: every candidate the punctuation pass emits for a silence attributed an
"end"-class mark (`'.'`, `'!'`, `'?'`, `"..."`) has target exactly 24 frames
(`24 × 33 = 792` ms) when the silence's length is at least 20 frames
(`20 × 33 = 660` ms, i.e. `len / 33 ≥ 20`), and keeps the original length
unchanged when it is below 20 frames. -/
theorem end_policy_caps_at_24_frames (rng : ℕ → ℤ) (ws : List AlignedWord)
    (ss : List Silence) (ep : EditPoint) (hmem : ep ∈ (punctPass rng 0 ss ws).2)
    (hend : ep.punct ∈ [".", "!", "?", "..."]) :
    (20 * FRAME_MS ≤ ep.original_len → ep.target_len = 24 * FRAME_MS) ∧
    (ep.original_len < 20 * FRAME_MS → ep.target_len = ep.original_len) := by
  obtain ⟨w, s, j, _, rfl⟩ := punctPass_mem rng ws 0 ss ep hmem
  have hp : (punctEP w s (rng j)).punct = w.punctuation_after := rfl
  rw [hp] at hend
  have hcls : get_punctuation_config w.punctuation_after = .pend :=
    end_class_config _ hend
  simp only [punctEP, punctTarget, hcls]
  constructor
  · intro hge
    simp only [endTargetPause, if_pos hge]
  · intro hlt
    simp only [endTargetPause, if_neg (not_le.mpr hlt)]

theorem end_policy_caps_at_24_frames_witness :
    ((⟨1100, "x", ".", 1050, 2000, 1000, 792, false⟩ : EditPoint) ∈
        (punctPass rngSix 0 silencesC7 wordsC7).2 ∧
      (".") ∈ [".", "!", "?", "..."]) ∧
    (20 * FRAME_MS ≤ (1000 : ℤ) → (792 : ℤ) = 24 * FRAME_MS) ∧
    ((1000 : ℤ) < 20 * FRAME_MS → (792 : ℤ) = 1000) := by
  refine ⟨⟨by decide, by decide⟩, ?_⟩
  exact end_policy_caps_at_24_frames rngSix wordsC7 silencesC7
    ⟨1100, "x", ".", 1050, 2000, 1000, 792, false⟩ (by decide) (by decide)

/-- C2 (counterexample): with detector silences `(1000,1070)` and
`(1100,1800)` — ascending and non-overlapping — and two sentence-final words
ending at 1150 ms and 1190 ms, the first word claims the nearer second
silence and the later word is matched to the earlier 70 ms silence with its
edited-span start clamped to `1190 - 50 = 1140`, past that silence's end; the
resolved plan is `[(1100,1800), (1140,1070)]`, violating both
`plan[i].silence_end ≤ plan[i+1].silence_start` and the "0 or ≥ 700 ms"
voice-span property. -/
theorem resolver_nonoverlap_counterexample :
    SilencesWellFormed rangesC2 ∧
    ¬ (PlanNonOverlap planC2 ∧ PlanVoiceFloor planC2) := by
  constructor
  · constructor
    · show List.Chain' (fun (a b : ℤ × ℤ) => a.2 ≤ b.1) rangesC2
      exact List.chain'_pair.mpr (by norm_num [rangesC2])
    · intro r hr
      have hr' : r ∈ [((1000 : ℤ), (1070 : ℤ)), (1100, 1800)] := hr
      fin_cases hr' <;> norm_num
  · rintro ⟨hno, -⟩
    have hplan : planC2 = [⟨1150, "a", ".", 1100, 1800, 700, 792, false⟩,
        ⟨1190, "b", ".", 1140, 1070, 70, 70, false⟩] := by decide
    rw [hplan] at hno
    have h12 := List.chain'_pair.mp hno
    norm_num at h12

/-- C2 (amended): for every candidate list, consecutive entries of the
resolved plan have a preceding voice span that is never strictly between 0
and 700 ms — it is either ≤ 0 or ≥ 700 ms.  (Non-overlap, i.e. a
nonnegative span, is not guaranteed: clamped candidate spans can overlap, as
the counterexample shows; an exactly-0 span is one of the ≤ 0 cases.) -/
theorem resolver_voice_gap_never_tiny (cands : List EditPoint) :
    List.Chain' (fun p q => q.silence_start - p.silence_end ≤ 0 ∨
      MIN_VOICE_CHUNK_MS ≤ q.silence_start - p.silence_end) (resolvePlan cands) := by
  rw [resolvePlan_eq_sweep]
  refine (sweepTiny_chain 0 (sortByStart cands)).imp ?_
  intro a b h
  rcases not_and_or.mp h with h' | h'
  · exact Or.inl (not_lt.mp h')
  · exact Or.inr (not_lt.mp h')

/-- C3: for every match predicate, script-token list and transcript, the
aligner's script cursor never moves backward (the cursor history is
non-decreasing from its initial value 0), and the indices of consumed script
tokens are strictly increasing — so no script token is matched to two
different transcript words. -/
theorem alignment_cursor_monotone (matchF : String → String → Bool)
    (sw : List ScriptTok) (tws : List TranscriptWord) :
    List.Pairwise (· < ·) (alignGo matchF sw 0 tws).2.1 ∧
    List.Chain' (· ≤ ·) ((0 : ℕ) :: (alignGo matchF sw 0 tws).2.2) :=
  ⟨alignGo_trace_sorted matchF sw tws 0, alignGo_cursor_mono matchF sw tws 0⟩

/-- C4: one anomaly-pass iteration for a pair of words where the earlier one
carries no punctuation and the gap is ≥ 300 ms: if the first-match scan finds
a silence, that silence was unused and lies within the gap with ±50 ms
tolerance, it is marked used, and the emitted `tts_error` candidate reserves
a 50 ms head and tail and targets `min(original_len, 100)`; if the scan finds
nothing, no unused silence lies in the window and no candidate is emitted. -/
theorem anomaly_pass_step (ss : List Silence) (cur nxt : AlignedWord)
    (hp : cur.punctuation_after = "")
    (hg : TTS_ERROR_THRESHOLD_MS ≤ nxt.start_ms - cur.end_ms) :
    (∀ idx, findFirstIdx (ttsWindow cur nxt) ss = some idx →
      (ttsStep ss cur nxt).2 = some (ttsEP cur (ss.getD idx (mkSilence 0 0))) ∧
      (ttsStep ss cur nxt).1 = markUsed ss idx ∧
      (ttsEP cur (ss.getD idx (mkSilence 0 0))).target_len =
        min (ss.getD idx (mkSilence 0 0)).len TTS_ERROR_TARGET_MS ∧
      (ttsEP cur (ss.getD idx (mkSilence 0 0))).silence_start =
        (ss.getD idx (mkSilence 0 0)).start + TTS_ERROR_HEAD_MS ∧
      (ttsEP cur (ss.getD idx (mkSilence 0 0))).silence_end =
        (ss.getD idx (mkSilence 0 0)).stop - TTS_ERROR_TAIL_MS ∧
      (ss.getD idx (mkSilence 0 0)).used = false ∧
      cur.end_ms - 50 ≤ (ss.getD idx (mkSilence 0 0)).start ∧
      (ss.getD idx (mkSilence 0 0)).stop ≤ nxt.start_ms + 50) ∧
    (findFirstIdx (ttsWindow cur nxt) ss = none →
      (ttsStep ss cur nxt).2 = none ∧
      ∀ s ∈ ss, ¬(s.used = false ∧ cur.end_ms - 50 ≤ s.start ∧
        s.stop ≤ nxt.start_ms + 50)) := by
  have hstep : ttsStep ss cur nxt =
      (match findFirstIdx (ttsWindow cur nxt) ss with
       | none => (ss, none)
       | some idx => (markUsed ss idx, some (ttsEP cur (ss.getD idx (mkSilence 0 0))))) := by
    unfold ttsStep
    rw [if_neg (not_not_intro hp), if_pos hg]
  constructor
  · intro idx hidx
    rw [hstep, hidx]
    have hwin := findFirstIdx_some (ttsWindow cur nxt) ss idx hidx
    simp only [ttsWindow, Bool.and_eq_true, Bool.not_eq_true', decide_eq_true_eq] at hwin
    exact ⟨rfl, rfl, rfl, rfl, rfl, hwin.1.1, hwin.1.2, hwin.2⟩
  · intro hnone
    rw [hstep, hnone]
    refine ⟨rfl, ?_⟩
    intro s hs ⟨hu, h1, h2⟩
    have hfalse := findFirstIdx_none (ttsWindow cur nxt) ss hnone s hs
    simp only [ttsWindow, hu, Bool.not_false, Bool.true_and, Bool.and_eq_false_iff,
      decide_eq_false_iff_not] at hfalse
    rcases hfalse with h | h
    · exact h h1
    · exact h h2

theorem anomaly_pass_step_witness :
    (ttsStep [mkSilence 1000 1300] ⟨"u", 0, 1000, ""⟩ ⟨"v", 1350, 1500, ""⟩).2 =
      some (ttsEP ⟨"u", 0, 1000, ""⟩ (mkSilence 1000 1300)) :=
  ((anomaly_pass_step [mkSilence 1000 1300] ⟨"u", 0, 1000, ""⟩ ⟨"v", 1350, 1500, ""⟩
    rfl (by decide)).1 0 (by decide)).1

/-- C5 (counterexample): the claim says the "none"-class policy returns a
target in [7,9] frames for lengths of 8-23 frames, but the code draws
`random.randint(6, 8)`: at 330 ms (10 frames) with the admissible draw 6 the
result is `6 × 33 = 198` ms, which is not in `[7 × 33, 9 × 33]`. -/
theorem none_policy_range_counterexample :
    ((6 : ℤ) ≤ 6 ∧ (6 : ℤ) ≤ 8) ∧
    (8 ≤ (330 : ℤ).fdiv FRAME_MS ∧ (330 : ℤ).fdiv FRAME_MS ≤ 23) ∧
    calculate_hybrid_pause 330 "" 6 = 198 ∧
    ¬(7 * FRAME_MS ≤ (198 : ℤ) ∧ (198 : ℤ) ≤ 9 * FRAME_MS) := by decide

/-- C5 (amended): the "none"-class branch of `calculate_hybrid_pause` (the
anomaly-correction fallback) keeps the length unchanged at ≤ 7 frames,
returns the draw `r` of `randint(6, 8)` times the frame period at 8-23
frames — a target in [6,8] frames (198-264 ms), not [7,9] — and caps at
24 frames (792 ms) at ≥ 24 frames.  (Fast mode's `_apply_v2_logic` uses a
different ≤ 6-frame keep threshold and head/tail-preserving rebuild, so
this statement is scoped to the anomaly-correction policy.) -/
theorem none_policy_frames (ms r : ℤ) (hr6 : 6 ≤ r) (hr8 : r ≤ 8) :
    (ms.fdiv FRAME_MS ≤ 7 → calculate_hybrid_pause ms "" r = ms) ∧
    (8 ≤ ms.fdiv FRAME_MS ∧ ms.fdiv FRAME_MS ≤ 23 →
      calculate_hybrid_pause ms "" r = r * FRAME_MS ∧
      6 * FRAME_MS ≤ r * FRAME_MS ∧ r * FRAME_MS ≤ 8 * FRAME_MS) ∧
    (24 ≤ ms.fdiv FRAME_MS → calculate_hybrid_pause ms "" r = 24 * FRAME_MS) := by
  have hcfg : get_punctuation_config "" = .pnone := rfl
  unfold calculate_hybrid_pause
  rw [hcfg]
  simp only [FRAME_MS, END_SENTENCE_FRAMES]
  refine ⟨?_, ?_, ?_⟩
  · intro h7
    rw [if_pos h7]
  · rintro ⟨h8, h23⟩
    rw [if_neg (by omega), if_pos h23]
    omega
  · intro h24
    rw [if_neg (by omega), if_neg (by omega)]

theorem none_policy_frames_witness :
    ((8 : ℤ).fdiv FRAME_MS ≤ 7 → calculate_hybrid_pause 8 "" 6 = 8) ∧
    (8 ≤ (8 : ℤ).fdiv FRAME_MS ∧ (8 : ℤ).fdiv FRAME_MS ≤ 23 →
      calculate_hybrid_pause 8 "" 6 = 6 * FRAME_MS ∧
      6 * FRAME_MS ≤ 6 * FRAME_MS ∧ 6 * FRAME_MS ≤ 8 * FRAME_MS) ∧
    (24 ≤ (8 : ℤ).fdiv FRAME_MS → calculate_hybrid_pause 8 "" 6 = 24 * FRAME_MS) :=
  none_policy_frames 8 6 (by norm_num) (by norm_num)

/-- C6: `align_transcript_with_script` returns only the list of aligned
words — evaluated here on a three-word transcript and script, the value is
the bare `List AlignedWord`, with no report component; the claimed
`(aligned_words, report)` pair does not exist in the function's return
value (its caller at processor.py:289 unpacks two values and reads report
keys, which fails at runtime). -/
theorem aligner_returns_list_only :
    align_transcript_with_script (fun a b => a == b)
      [⟨"xin", ""⟩, ⟨"chao", "."⟩, ⟨"toi", ""⟩]
      [⟨"xin", 0, 200⟩, ⟨"chao", 220, 500⟩, ⟨"toi", 1400, 1600⟩] =
      [⟨"xin", 0, 200, ""⟩, ⟨"chao", 220, 500, "."⟩, ⟨"toi", 1400, 1600, ""⟩] := by
  decide

/-- C7 (counterexample): for the run with one sentence-final word ending at
1100 ms and one silence `(1000, 2000)` on a 3000 ms track, the edited span is
clamped to start at 1050, so the reconstruction removes 950 ms (not the
1000 ms `original_len`) and inserts 792 ms: output length is 2842 ms, while
the claimed formula `original − Σ original_len + Σ target_len` gives 2792. -/
theorem accounting_counterexample :
    ((rebuildCore audio3000 planC7).length : ℤ) ≠
      (audio3000.length : ℤ) - planOrigSum planC7 + planTargetSum planC7 := by
  have hplan : planC7 = [epC7] := by decide
  have hlen : (audio3000.length : ℤ) = 3000 := by
    rw [audio3000, List.length_replicate]
    norm_num
  have hok : PlanOK (audio3000.length : ℤ) 0 [epC7] := by
    rw [hlen]
    simp only [PlanOK, epC7]
    norm_num
  rw [hplan, rebuildCore_length audio3000 [epC7] hok, hlen]
  simp only [planSpanSum, planOrigSum, planTargetSum, epC7, List.map_cons, List.map_nil,
    List.sum_cons, List.sum_nil]
  norm_num

/-- C7 (amended): for a well-formed plan (entries in order, spans in bounds
and ≥ 60 ms, `original_len > 60` ms, `target_len ≥ 60` ms), the pre-trim
reconstructed length equals the original length minus the sum of **edited
span lengths** (`silence_end − silence_start`) plus the sum of targets.
This equals the claimed `original − Σ original_len + Σ target_len` only when
every entry's span length equals its `original_len`, which the head clamp
(processor.py:339) and the anomaly pass's 50 ms head/tail reserve violate. -/
theorem reconstruction_length_accounting (audio : List ℤ) (plan : List EditPoint)
    (hok : PlanOK (audio.length : ℤ) 0 plan) :
    ((rebuildCore audio plan).length : ℤ) =
      (audio.length : ℤ) - planSpanSum plan + planTargetSum plan :=
  rebuildCore_length audio plan hok

theorem reconstruction_length_accounting_witness :
    ((rebuildCore audio3000 [epC7]).length : ℤ) =
      (audio3000.length : ℤ) - planSpanSum [epC7] + planTargetSum [epC7] :=
  reconstruction_length_accounting audio3000 [epC7] (by
    simp only [audio3000, List.length_replicate, PlanOK, epC7]
    norm_num)

/-- C8 (counterexample): with an empty plan on a 3000 ms all-silence track,
the trailing-silence post-pass (processor.py:569-580) — here fed the
detector's answer that the whole tail chunk is silence — trims the output to
500 ms, so the exported audio is not byte-identical to the input. -/
theorem empty_plan_trim_counterexample :
    fullRebuild tailDetC8 audio3000 [] ≠ audio3000 := by
  have hlenN : audio3000.length = 3000 := by
    rw [audio3000, List.length_replicate]
  have htrim : fullRebuild tailDetC8 audio3000 [] = audio3000.take 500 := by
    unfold fullRebuild
    rw [rebuildCore_nil]
    unfold trimTail tailDetC8
    simp only [hlenN, List.getLast?, List.getLast]
    norm_num
    omega
  intro h
  rw [htrim] at h
  have hlen := congrArg List.length h
  rw [List.length_take, hlenN] at hlen
  norm_num at hlen

/-- C8 (amended): with an empty plan the reconstruction loop itself is a
verbatim copy of the input — byte-identical — and the exported audio is that
copy possibly shortened by the trailing-silence post-pass (which removes
trailing silence beyond 500 ms when the detector reports one reaching the
end). -/
theorem empty_plan_verbatim (audio : List ℤ) (det : List ℤ → List (ℤ × ℤ)) :
    rebuildCore audio [] = audio ∧
    fullRebuild det audio [] = trimTail det audio := by
  refine ⟨rebuildCore_nil audio, ?_⟩
  unfold fullRebuild
  rw [rebuildCore_nil]

/-- C9: if the cooperative cancellation query returns true at any checked
boundary — after loading (poll 0), after transcription (poll 1), or at any
iteration of the reconstruction loop (polls 2, …, 1 + plan length) — the
pipeline yields the cancelled outcome (`Except.error`), and in particular
never reaches the export step: no output is produced. -/
theorem cancellation_no_partial_output (cancel : ℕ → Bool)
    (det : List ℤ → List (ℤ × ℤ)) (audio : List ℤ) (plan : List EditPoint)
    (h : ∃ j, j < 2 + plan.length ∧ cancel j = true) :
    runSmartPipeline cancel det audio plan = .error () := by
  obtain ⟨j, hj, hjc⟩ := h
  unfold runSmartPipeline
  by_cases h0 : cancel 0 = true
  · rw [if_pos h0]
  · rw [if_neg h0]
    by_cases h1 : cancel 1 = true
    · rw [if_pos h1]
    · rw [if_neg h1]
      have hj2 : 2 ≤ j := by
        rcases Nat.lt_or_ge j 2 with h | h
        · interval_cases j
          · exact absurd hjc h0
          · exact absurd hjc h1
        · exact h
      rw [rebuildAuxCancel_error cancel audio plan 2 0 ⟨j, hj2, by omega, hjc⟩]

theorem cancellation_no_partial_output_witness :
    runSmartPipeline (fun _ => true) (fun _ => []) [] [] = .error () :=
  cancellation_no_partial_output (fun _ => true) (fun _ => []) [] []
    ⟨0, by norm_num, rfl⟩

/-- C10: every candidate the punctuation pass emits has
`silence_start ≥ word_end − 50`: the edited span's start is the clamped
`max(best_silence.start, word_end − 50)` (processor.py:339), so even when the
matched silence was detected up to 200 ms before the word's end, at most
50 ms of audio before the word's end is ever cut. -/
theorem punct_candidate_start_clamped (rng : ℕ → ℤ) (ws : List AlignedWord)
    (ss : List Silence) (ep : EditPoint) (hmem : ep ∈ (punctPass rng 0 ss ws).2) :
    ep.word_end - 50 ≤ ep.silence_start := by
  obtain ⟨w, s, j, _, rfl⟩ := punctPass_mem rng ws 0 ss ep hmem
  simp only [punctEP]
  exact le_max_right _ _

theorem punct_candidate_start_clamped_witness :
    (1100 : ℤ) - 50 ≤ 1050 :=
  punct_candidate_start_clamped rngSix wordsC7 silencesC7
    ⟨1100, "x", ".", 1050, 2000, 1000, 792, false⟩ (by decide)
